import Mathlib

/-!
# RecLo — verification of the offline-recording core

Shallow embedding of the RecLo firmware core (recorder, chunk store,
transfer protocol) and proofs about it.  Two C implementations exist in
the repository: the reference variant under `src/firmware/src` (accumulate
recorder, `reclo_transfer_store_chunk` store path) and the omi variant
under `src/omi/firmware/omi/src` (streaming recorder with `.tmp`/`.upt`
lifecycle and retimestamper).  Definitions below are translated from those
sources; each definition's doc comment names the C function it embeds.

Machine integers are modelled as `Nat` with explicit `% 2^32` / `% 2^16`
where the C code truncates.  Byte strings (file contents, filenames,
packet payloads) are `List Nat` of byte values.
-/

namespace RecLo

/-! ## Byte-level helpers -/

/-- Little-endian 2-byte encoding of a 16-bit value (as written by the C
`memcpy` of a `uint16_t`). -/
def u16le (n : Nat) : List Nat := [n % 256, n / 256 % 256]

/-- Little-endian 4-byte encoding of a 32-bit value (as written by the C
`memcpy` of a `uint32_t`). -/
def u32le (n : Nat) : List Nat :=
  [n % 256, n / 256 % 256, n / 2 ^ 16 % 256, n / 2 ^ 24 % 256]

/-- Read a little-endian `uint32` at byte offset `off` (as done by the C
`memcpy(&x, &buf[off], 4)`); out-of-range bytes read as 0. -/
def readU32 (bytes : List Nat) (off : Nat) : Nat :=
  bytes.getD off 0 + 256 * bytes.getD (off + 1) 0 +
    2 ^ 16 * bytes.getD (off + 2) 0 + 2 ^ 24 * bytes.getD (off + 3) 0

/-! ## Filenames

Filenames are byte lists.  `%010u` zero-pads to 10 decimal digits
(every timestamp is a `uint32`, hence `< 10^10`). -/

/-- The ten decimal digits of `n`, most significant first (`%010u`
for `n < 10^10`). -/
def digitsOf (n : Nat) : List Nat :=
  [n / 10 ^ 9 % 10, n / 10 ^ 8 % 10, n / 10 ^ 7 % 10, n / 10 ^ 6 % 10,
   n / 10 ^ 5 % 10, n / 10 ^ 4 % 10, n / 10 ^ 3 % 10, n / 10 ^ 2 % 10,
   n / 10 % 10, n % 10]

/-- The 10-character zero-padded decimal rendering of `n` as ASCII bytes. -/
def dec10 (n : Nat) : List Nat := (digitsOf n).map (fun d => 48 + d)

/-- ASCII bytes of `".bin"`. -/
def binSfx : List Nat := [46, 98, 105, 110]

/-- ASCII bytes of `".upt"`. -/
def uptSfx : List Nat := [46, 117, 112, 116]

/-- ASCII bytes of `".tmp"`. -/
def tmpSfx : List Nat := [46, 116, 109, 112]

/-- `strtoul` applied to the first 10 characters of a filename (the C
retimestamp scan copies 10 chars and parses them): accumulate decimal
digits, stop at the first non-digit. -/
def parseDigitsAux : List Nat → Nat → Nat
  | [], acc => acc
  | c :: rest, acc =>
    if 48 ≤ c ∧ c ≤ 57 then parseDigitsAux rest (acc * 10 + (c - 48)) else acc

/-- Numeric value of the 10-character prefix of a filename. -/
def parse10 (name : List Nat) : Nat := parseDigitsAux (name.take 10) 0

/-! ## Time source (`src/firmware/src/reclo_transfer.c`) -/

/-- State of the wall-clock time source: `(_epoch_base, _uptime_base_ms,
_time_synced)`. -/
structure TimeSrc where
  epoch_base : Nat
  uptime_base_ms : Nat
  synced : Bool
deriving DecidableEq, Repr

/-- `reclo_time_get()`: epoch seconds when synced, uptime seconds
otherwise. -/
def reclo_time_get (t : TimeSrc) (uptime_ms : Nat) : Nat :=
  if t.synced then (t.epoch_base + (uptime_ms - t.uptime_base_ms) / 1000) % 2 ^ 32
  else uptime_ms / 1000 % 2 ^ 32

/-! ## Chunk file header (`write_initial_header` / `reclo_transfer_store_chunk`) -/

/-- The magic bytes `'R','C','L','O'`. -/
def rcloMagic : List Nat := [82, 67, 76, 79]

/-- The 17-byte RCLO file header:
magic(4) + ts(4, u32 LE) + codec_id(1) + sample_rate(4, u32 LE) +
data_size(4, u32 LE). -/
def mkHeader (ts codec_id sr data_size : Nat) : List Nat :=
  rcloMagic ++ u32le ts ++ [codec_id % 256] ++ u32le sr ++ u32le data_size

/-! ## Recorder: chunk open/finalize (`src/omi/firmware/omi/src/reclo_recorder.c`) -/

/-- Published-name suffix of a chunk file. -/
inductive Suffix where
  | bin
  | upt
  | tmp
deriving DecidableEq, Repr

/-- The per-chunk recorder state set by `open_chunk_file`. -/
structure RecorderChunk where
  ts : Nat
  unsynced : Bool
deriving DecidableEq, Repr

/-- `open_chunk_file(ts)` from the omi recorder: the `ts` argument is
ignored (`ARG_UNUSED(ts)`); the chunk timestamp is always
`(uint32)(k_uptime_get() / 1000)` and `_chunk_unsynced` is always set. -/
def open_chunk_file (utc_ts up_ms : Nat) : RecorderChunk :=
  let _ := utc_ts
  { ts := up_ms / 1000 % 2 ^ 32, unsynced := true }

/-- The published suffix chosen by `finalize_chunk`:
`_chunk_unsynced ? "upt" : "bin"`. -/
def finalize_suffix (c : RecorderChunk) : Suffix :=
  if c.unsynced then Suffix.upt else Suffix.bin

/-! ## Filesystem entries -/

/-- A directory entry together with its file contents (the store has no
in-memory index; the directory is the canonical chunk index). -/
structure FsEntry where
  name : List Nat
  isFile : Bool
  content : List Nat
deriving DecidableEq, Repr

/-- `reclo_transfer_store_chunk(ts, data, len)` from
`src/firmware/src/reclo_transfer.c`: writes the 17-byte header (codec 20,
sample rate 16000, `data_size = len`) followed by `data` to
`{ts:010u}.bin`. -/
def reclo_transfer_store_chunk (ts : Nat) (data : List Nat) : FsEntry :=
  { name := dec10 (ts % 2 ^ 32) ++ binSfx
    isFile := true
    content := mkHeader (ts % 2 ^ 32) 20 16000 data.length ++ data }

/-- The chunk file published by the omi `finalize_chunk`: the `.tmp`
contents (placeholder header written at open, then the appended body) with
`data_size` back-filled at offset 13, renamed to
`{_chunk_start_ts:010u}.{upt|bin}`. -/
def finalize_publish (c : RecorderChunk) (body : List Nat) (total : Nat) : FsEntry :=
  let tmp := mkHeader c.ts 21 16000 0 ++ body
  { name := dec10 c.ts ++ (if c.unsynced then uptSfx else binSfx)
    isFile := true
    content := tmp.take 13 ++ u32le (total % 2 ^ 32) ++ tmp.drop 17 }

/-! ## CRC-32

The firmware calls Zephyr's `crc32_ieee_update` (not part of this
repository).  The spec's §6 external-collaborator contract fixes it:
"CRC: standard CRC-32/ISO-HDLC over arbitrary byte spans", i.e. the
reflected polynomial 0xEDB88320 with initial value 0xFFFFFFFF and final
XOR 0xFFFFFFFF, seeded through an API whose running argument is the
already-complemented checksum. -/

/-- One bit step of the reflected CRC-32: shift right, conditionally XOR
the polynomial 0xEDB88320. -/
def crcBit (crc : Nat) : Nat :=
  if crc % 2 = 1 then (crc / 2) ^^^ 0xEDB88320 else crc / 2

/-- One byte step: XOR the byte into the low bits, then 8 bit steps. -/
def crcByte (crc b : Nat) : Nat :=
  crcBit (crcBit (crcBit (crcBit (crcBit (crcBit (crcBit (crcBit (crc ^^^ b % 256))))))))

/-- The raw (un-complemented) CRC register run over a byte list. -/
def crcRaw (crc : Nat) (data : List Nat) : Nat := data.foldl crcByte crc

/-- XOR with 0xFFFFFFFF (32-bit complement). -/
def xor32 (a : Nat) : Nat := a ^^^ 0xFFFFFFFF

/-- Modelled from the spec: §6 "CRC: standard CRC-32/ISO-HDLC over
arbitrary byte spans" — Zephyr's `crc32_ieee_update(crc, data, len)`,
whose implementation is not part of this repository.  It complements the
incoming running value, folds the bytes, and complements the result, so
that seeding with 0 yields the standard checksum (init 0xFFFFFFFF, final
XOR 0xFFFFFFFF). -/
def crc32_ieee_update (crc : Nat) (data : List Nat) : Nat :=
  xor32 (crcRaw (xor32 (crc % 2 ^ 32)) data)

/-- The one-shot standard CRC-32/ISO-HDLC checksum. -/
def crc32_iso_hdlc (data : List Nat) : Nat := crc32_ieee_update 0 data

/-- The checksum named by the spec sentence read literally: polynomial
0xEDB88320 with "initial 0, final XOR 0". -/
def crc32_claimed (data : List Nat) : Nat := crcRaw 0 data

/-- The CRC loop of `upload_one_chunk`: starting from `crc = 0`, read the
body in 256-byte blocks and fold each through `crc32_ieee_update`.
`fuel` bounds the recursion (one unit per block suffices; callers pass the
body length). -/
def crcLoop : Nat → Nat → List Nat → Nat
  | _, crc, [] => crc
  | 0, crc, _ => crc
  | fuel + 1, crc, rest =>
    crcLoop fuel (crc32_ieee_update crc (rest.take 256)) (rest.drop 256)

/-- CRC of a chunk body as computed by `upload_one_chunk`. -/
def crcBody (body : List Nat) : Nat := crcLoop body.length 0 body

/-! ## Transfer protocol packets (`reclo_transfer.h`) -/

/-- The fixed 244-byte data packet.  Multi-byte fields are stored here as
their numeric values (all little-endian on the wire); `payload` is the
full zero-padded 229-byte area. -/
structure Packet where
  pkt_type : Nat
  chunk_ts : Nat
  chunk_idx : Nat
  total_chunks : Nat
  seq : Nat
  total_seqs : Nat
  payload_len : Nat
  payload : List Nat
deriving DecidableEq, Repr

/-- Zero-pad a payload to `n` bytes (the packet struct is `memset` to 0
before the payload is copied in). -/
def padTo (n : Nat) (l : List Nat) : List Nat := l ++ List.replicate (n - l.length) 0

/-- The UPLOAD_DONE packet: `memset(&done, 0, ...)` then
`pkt_type = RECLO_PKT_UPLOAD_DONE`. -/
def donePkt : Packet :=
  { pkt_type := 3, chunk_ts := 0, chunk_idx := 0, total_chunks := 0,
    seq := 0, total_seqs := 0, payload_len := 0, payload := List.replicate 229 0 }

/-- `data_seqs = (uint16_t)((data_size + RECLO_PAYLOAD_SIZE - 1) / RECLO_PAYLOAD_SIZE)`. -/
def dataSeqs (ds : Nat) : Nat := (ds + 228) / 229 % 2 ^ 16

/-- `total_seqs = 1 + data_seqs` (uint16). -/
def totalSeqs (ds : Nat) : Nat := (1 + dataSeqs ds) % 2 ^ 16

/-- One CHUNK_DATA packet as built inside the send loop of
`upload_one_chunk`. -/
def mkDataPacket (ts idx total tseqs sq : Nat) (chunk : List Nat) : Packet :=
  { pkt_type := 2, chunk_ts := ts, chunk_idx := idx, total_chunks := total,
    seq := sq % 2 ^ 16, total_seqs := tseqs,
    payload_len := chunk.length, payload := padTo 229 chunk }

/-- The CHUNK_DATA send loop of `upload_one_chunk`: read 229 bytes at a
time until EOF, `seq` starting at 1 and incrementing (uint16).  `fuel`
bounds the recursion; callers pass the body length. -/
def dataPackets (ts idx total tseqs : Nat) : Nat → Nat → List Nat → List Packet
  | 0, _, _ => []
  | fuel + 1, sq, rest =>
    match rest with
    | [] => []
    | _ :: _ =>
      mkDataPacket ts idx total tseqs sq (rest.take 229)
        :: dataPackets ts idx total tseqs fuel (sq + 1) (rest.drop 229)

/-- The effective data size used by the omi `upload_one_chunk`: the
header field, with the power-loss recovery — when it reads 0, fall back
to `file_size - 17` (0 again when the body is empty). -/
def dsOf (content : List Nat) : Nat :=
  if readU32 content 13 = 0 then
    (if 17 < content.length then content.length - 17 else 0)
  else readU32 content 13

/-- The 13-byte CHUNK_HEADER meta payload (`RecloChunkMeta`): `data_size`
u32, `codec_id` u8, `sample_rate` u32, `crc32` u32 — all read from the
file header except the CRC, which is computed over the body. -/
def chunkMetaW (ds : Nat) (content : List Nat) : List Nat :=
  u32le ds ++ [content.getD 8 0] ++ u32le (readU32 content 9) ++
    u32le (crcBody (content.drop 17))

/-- The CHUNK_HEADER packet built by `upload_one_chunk` for a given
effective data size. -/
def hdrPktW (ds : Nat) (content : List Nat) (idx total : Nat) : Packet :=
  { pkt_type := 1, chunk_ts := readU32 content 4, chunk_idx := idx % 2 ^ 16,
    total_chunks := total % 2 ^ 16, seq := 0, total_seqs := totalSeqs ds,
    payload_len := 13, payload := padTo 229 (chunkMetaW ds content) }

/-- `upload_one_chunk` from `src/omi/firmware/omi/src/reclo_transfer.c`,
as the list of packets it emits when the session stays active and every
send succeeds: short file → `-EIO`, no packets; bad magic → `-EILSEQ`, no
packets; `data_size == 0` is recovered to `file_size - 17` when the body
is non-empty and the chunk is skipped (`-ENODATA`) otherwise; then one
CHUNK_HEADER packet (13-byte meta payload) followed by the CHUNK_DATA
packets of the whole body, read 229 bytes at a time to EOF. -/
def upload_one_chunk (content : List Nat) (idx total : Nat) : List Packet :=
  if content.length < 17 then []
  else if content.take 4 ≠ rcloMagic then []
  else if dsOf content = 0 then []
  else
    hdrPktW (dsOf content) content idx total ::
      dataPackets (readU32 content 4) (idx % 2 ^ 16) (total % 2 ^ 16)
        (totalSeqs (dsOf content)) (content.drop 17).length 1 (content.drop 17)

/-- `upload_one_chunk` from `src/firmware/src/reclo_transfer.c` (the
reference variant): identical except that there is no `data_size == 0`
recovery and no empty-chunk skip — the header field is used as read, and
the data loop still streams the whole body to EOF. -/
def upload_one_chunk_ref (content : List Nat) (idx total : Nat) : List Packet :=
  if content.length < 17 then []
  else if content.take 4 ≠ rcloMagic then []
  else
    hdrPktW (readU32 content 13) content idx total ::
      dataPackets (readU32 content 4) (idx % 2 ^ 16) (total % 2 ^ 16)
        (totalSeqs (readU32 content 13)) (content.drop 17).length 1 (content.drop 17)

/-! ## Upload batch enumeration and ordering (`upload_thread_fn`) -/

/-- The omi enumerator's filename test:
`nlen > 4 && strcmp(ent.name + nlen - 4, ".bin") == 0`. -/
def isBinName (name : List Nat) : Prop :=
  4 < name.length ∧ name.drop (name.length - 4) = binSfx

instance (name : List Nat) : Decidable (isBinName name) := by
  unfold isBinName; infer_instance

/-- The enumeration loop of the omi `upload_thread_fn`: walk the
directory in order, keep regular files passing `isBinName`, and stop as
soon as `RECLO_MAX_CHUNKS` (the `room` argument, 64 at the call site)
entries have been collected. -/
def enumBinF : List FsEntry → Nat → List FsEntry
  | [], _ => []
  | e :: rest, room =>
    if room = 0 then []
    else if e.isFile ∧ isBinName e.name then e :: enumBinF rest (room - 1)
    else enumBinF rest room

/-- The enumeration loop of the reference `upload_thread_fn`
(`src/firmware/src/reclo_transfer.c`): every regular file is kept — there
is no suffix test at all. -/
def enumAllF : List FsEntry → Nat → List FsEntry
  | [], _ => []
  | e :: rest, room =>
    if room = 0 then []
    else if e.isFile then e :: enumAllF rest (room - 1)
    else enumAllF rest room

/-- `strcmp(a, b) > 0` on NUL-terminated byte strings (a shorter string
that is a prefix of the other compares smaller). -/
def strGt : List Nat → List Nat → Bool
  | [], _ => false
  | _ :: _, [] => true
  | a :: as, b :: bs => if b < a then true else if a < b then false else strGt as bs

/-- Stable insertion by name, as performed by the insertion sort in
`upload_thread_fn` (swap while the predecessor compares greater). -/
def insertByName (f : FsEntry) : List FsEntry → List FsEntry
  | [] => [f]
  | g :: gs => if strGt g.name f.name then f :: g :: gs else g :: insertByName f gs

/-- The insertion sort of `upload_thread_fn` (ascending `strcmp` order on
zero-padded names = ascending timestamp order). -/
def sortFiles (fs : List FsEntry) : List FsEntry :=
  fs.foldl (fun acc f => insertByName f acc) []

/-- The per-batch chunk loop of `upload_thread_fn`: upload each file in
order with its 0-based index. -/
def uploadAll (total : Nat) : Nat → List FsEntry → List Packet
  | _, [] => []
  | i, f :: rest => upload_one_chunk f.content i total ++ uploadAll total (i + 1) rest

/-- One complete, non-aborted upload batch of the omi `upload_thread_fn`:
enumerate `.bin` files (at most 64), sort ascending, upload each in
order, then send UPLOAD_DONE.  (When nothing was enumerated this reduces
to the `count == 0` branch: a lone UPLOAD_DONE.)  The model assumes the
session stays active and the link stays up for the whole batch. -/
def upload_thread_batch (fs : List FsEntry) : List Packet :=
  let files := sortFiles (enumBinF fs 64)
  uploadAll files.length 0 files ++ [donePkt]

/-! ## Recorder frame ingest (`on_codec_output`, omi streaming variant) -/

/-- Recorder streaming state while a chunk file is open: bytes already
flushed to the file (after the 17-byte header), the RAM write buffer, and
`_total_bytes_in_chunk`. -/
structure RecState where
  file : List Nat
  buf : List Nat
  total : Nat
deriving DecidableEq, Repr

/-- `RECLO_STREAM_BUF_SIZE`. -/
def streamBufSize : Nat := 4096

/-- `on_codec_output(data, len)` from
`src/omi/firmware/omi/src/reclo_recorder.c`, for a recording session with
an open file: drop empty or oversized frames, drop frames that can never
fit the buffer, flush the buffer to the file when the frame would
overflow it, then append the 2-byte LE length prefix and the frame bytes
to the buffer. -/
def on_codec_output (s : RecState) (frame : List Nat) : RecState :=
  if frame.length = 0 ∨ 65535 < frame.length then s
  else if streamBufSize < 2 + frame.length then s
  else if streamBufSize < s.buf.length + 2 + frame.length then
    { file := s.file ++ s.buf, buf := u16le frame.length ++ frame,
      total := s.total + (2 + frame.length) }
  else
    { file := s.file, buf := s.buf ++ (u16le frame.length ++ frame),
      total := s.total + (2 + frame.length) }

/-- Feed a sequence of frames to the codec callback in order. -/
def ingestAll (s : RecState) (frames : List (List Nat)) : RecState :=
  frames.foldl on_codec_output s

/-- The chunk body as written by `finalize_chunk`: the already-flushed
bytes followed by the final flush of the RAM buffer. -/
def finalize_body (s : RecState) : List Nat := s.file ++ s.buf

/-- The acceptance condition of the ingest path: what `on_codec_output`
requires in order not to drop the frame. -/
def frameAccepted (frame : List Nat) : Prop :=
  1 ≤ frame.length ∧ frame.length ≤ 65535 ∧ 2 + frame.length ≤ streamBufSize

instance (frame : List Nat) : Decidable (frameAccepted frame) := by
  unfold frameAccepted; infer_instance

/-- One length-prefixed record of the chunk body format. -/
def frameRecord (frame : List Nat) : List Nat := u16le frame.length ++ frame

/-- Parser for the chunk body format: repeatedly read a 2-byte LE length
prefix and that many payload bytes; fail on a truncated record.  `fuel`
bounds the recursion (the body length suffices). -/
def parseFrames : Nat → List Nat → Option (List (List Nat))
  | _, [] => some []
  | 0, _ :: _ => none
  | _ + 1, [_] => none
  | fuel + 1, b0 :: b1 :: rest =>
    let len := b0 + 256 * b1
    if len ≤ rest.length then
      match parseFrames fuel (rest.drop len) with
      | some fs => some (rest.take len :: fs)
      | none => none
    else none

/-! ## Control channel (`ctrl_write`) -/

/-- The observable outcome of one `ctrl_write` invocation: the GATT
return value (the accepted length, or the BLE `invalid attribute length`
error for empty writes), the resulting `_upload_active` flag, whether the
upload semaphore was given, and the timestamp whose `.bin` file was
unlinked (if any). -/
structure CtrlEffect where
  ret : Int
  upload_active : Bool
  sem_give : Bool
  unlink_ts : Option Nat
deriving DecidableEq, Repr

/-- `BT_GATT_ERR(BT_ATT_ERR_INVALID_ATTRIBUTE_LEN)` (= -13). -/
def errInvalidLen : Int := -13

/-- `ctrl_write` from `reclo_transfer.c` (both variants are identical):
reject length 0; REQUEST_UPLOAD (0x01) sets `_upload_active` and gives
the semaphore when not already active; ACK_CHUNK (0x02) unlinks
`{ts:010u}.bin` only when the write carries the full 5 bytes; ABORT
(0x03) clears `_upload_active`; unknown commands are logged and ignored.
Every non-empty write returns its full length. -/
def ctrl_write (upload_active : Bool) (data : List Nat) : CtrlEffect :=
  if data.length = 0 then
    { ret := errInvalidLen, upload_active := upload_active,
      sem_give := false, unlink_ts := none }
  else
    if data.getD 0 0 = 1 then
      if upload_active then
        { ret := data.length, upload_active := true, sem_give := false,
          unlink_ts := none }
      else
        { ret := data.length, upload_active := true, sem_give := true,
          unlink_ts := none }
    else if data.getD 0 0 = 2 then
      if 5 ≤ data.length then
        { ret := data.length, upload_active := upload_active,
          sem_give := false, unlink_ts := some (readU32 data 1) }
      else
        { ret := data.length, upload_active := upload_active,
          sem_give := false, unlink_ts := none }
    else if data.getD 0 0 = 3 then
      { ret := data.length, upload_active := false, sem_give := false,
        unlink_ts := none }
    else
      { ret := data.length, upload_active := upload_active,
        sem_give := false, unlink_ts := none }

/-! ## Retimestamper (`reclo_recorder_retimestamp`, `.upt` loop) -/

/-- Overwrite the header `ts` field: seek to offset 4 and write the u32
LE value. -/
def patchTs (content : List Nat) (v : Nat) : List Nat :=
  content.take 4 ++ u32le v ++ content.drop 8

/-- The `real_ts` computed by `reclo_recorder_retimestamp` for a file
whose name parses to `file_ts`: `elapsed` is clamped at 0 when the file
timestamp exceeds the current uptime, and the subtraction from
`now_utc_s` is plain `uint32` arithmetic (it wraps, it does not
saturate). -/
def retimestampRealTs (now_up_s now_utc_s file_ts : Nat) : Nat :=
  let elapsed := now_up_s % 2 ^ 32 - file_ts % 2 ^ 32
  (2 ^ 32 + now_utc_s % 2 ^ 32 - elapsed) % 2 ^ 32

/-- Processing of one `.upt` file by the retimestamp loop: parse the
10-digit name prefix, compute `real_ts`, patch the header `ts` field
(when the `fs_open` for patching succeeds), then rename to
`{real_ts:010u}.bin` (when the `fs_rename` succeeds; on failure the file
keeps its `.upt` name — with the header already patched). -/
def retimestamp_upt_file (now_up_s now_utc_s : Nat) (patchOk renameOk : Bool)
    (f : FsEntry) : FsEntry :=
  let file_ts := parse10 f.name % 2 ^ 32
  let real_ts := retimestampRealTs now_up_s now_utc_s file_ts
  let content' := if patchOk then patchTs f.content real_ts else f.content
  if renameOk then
    { name := dec10 real_ts ++ binSfx, isFile := true, content := content' }
  else
    { name := f.name, isFile := true, content := content' }

/-- The `.upt` scan of `reclo_recorder_retimestamp`: collect regular
files named exactly `"0123456789.upt"` (14 chars, `.upt` at offset 10),
stopping once `RECLO_MAX_CHUNKS` (the `room` argument, 64 at the call
site) entries were found. -/
def scanUpt : List FsEntry → Nat → List FsEntry
  | [], _ => []
  | e :: rest, room =>
    if room = 0 then []
    else if e.isFile ∧ e.name.length = 14 ∧ e.name.drop 10 = uptSfx then
      e :: scanUpt rest (room - 1)
    else scanUpt rest room

/-- The filename/header invariant of the spec (§3, §8 property 1): for a
chunk file whose suffix is `.bin` or `.upt`, the numeric value of the
10-digit name prefix equals the `ts` field at header offset 4. -/
def chunkInvariant (f : FsEntry) : Prop :=
  (f.name.drop (f.name.length - 4) = binSfx ∨ f.name.drop (f.name.length - 4) = uptSfx) →
    parse10 f.name = readU32 f.content 4

instance (f : FsEntry) : Decidable (chunkInvariant f) := by
  unfold chunkInvariant; infer_instance

/-- Well-formedness of a chunk file as produced by this firmware: the
header `data_size` matches the body length (finalized and stored chunks)
or is 0 (the placeholder left by a power loss, repaired by the upload
recovery), and the chunk is no larger than the `uint16` sequence space
allows (a chunk holds at most `D` seconds of audio, far below
229 × 65534 bytes). -/
def sizeConsistent (c : List Nat) : Prop :=
  (readU32 c 13 = c.length - 17 ∨ readU32 c 13 = 0) ∧ c.length ≤ 17 + 229 * 65534

instance (c : List Nat) : Decidable (sizeConsistent c) := by
  unfold sizeConsistent; infer_instance

/-- "Every data packet is preceded by a header with the same timestamp",
phrased on an arbitrary decomposition of the packet stream. -/
def hdrBefore (l : List Packet) : Prop :=
  ∀ pre p post, l = pre ++ p :: post → p.pkt_type = 2 →
    ∃ h ∈ pre, h.pkt_type = 1 ∧ h.chunk_ts = p.chunk_ts

/-! ## Concrete scenario inputs -/

/-- Spec scenario S4, chunk 0: `1700000000.bin` with a 10,000-byte body. -/
def s4c0 : List Nat := mkHeader 1700000000 21 16000 10000 ++ List.replicate 10000 7

/-- Spec scenario S4, chunk 1: `1700000015.bin` with a 12,500-byte body. -/
def s4c1 : List Nat := mkHeader 1700000015 21 16000 12500 ++ List.replicate 12500 7

def s4e0 : FsEntry := { name := dec10 1700000000 ++ binSfx, isFile := true, content := s4c0 }

def s4e1 : FsEntry := { name := dec10 1700000015 ++ binSfx, isFile := true, content := s4c1 }

/-- The S4 storage directory: exactly the two `.bin` chunks. -/
def s4Store : List FsEntry := [s4e0, s4e1]

/-- A storage directory holding one file named `"abc.bin"` (7 characters,
not 14, not a digit prefix). -/
def c2CexStore : List FsEntry :=
  [{ name := [97, 98, 99] ++ binSfx, isFile := true, content := [] }]

/-- A chunk file with a valid header whose `data_size` field is 0 and
whose body holds 3 bytes (spec scenario S2 in miniature). -/
def c3CexFile : List Nat := mkHeader 1700000100 20 16000 0 ++ [1, 2, 3]

/-- A one-chunk store with a single 1-byte body. -/
def c4WitStore : List FsEntry :=
  [{ name := dec10 5 ++ binSfx, isFile := true, content := mkHeader 5 21 16000 1 ++ [7] }]

/-- A valid chunk file whose body is the single byte `0x00`. -/
def c6CexFile : List Nat := mkHeader 5 21 16000 1 ++ [0]

/-- A published `.upt` chunk recorded at uptime second 100, with a
5-byte body. -/
def c7CexFile : FsEntry :=
  { name := dec10 100 ++ uptSfx, isFile := true,
    content := mkHeader 100 21 16000 5 ++ [9, 9, 9, 9, 9] }

/-- An empty published `.upt` chunk recorded at uptime second 100. -/
def c8CexFile : FsEntry :=
  { name := dec10 100 ++ uptSfx, isFile := true, content := mkHeader 100 21 16000 0 }

/-! ## Sanity checks on the helpers -/

example : u16le 300 = [44, 1] := by decide
example : u32le 16000 = [128, 62, 0, 0] := by decide
example : readU32 (mkHeader 1700000000 21 16000 0) 4 = 1700000000 := by decide
example : dec10 1700000000 = [49, 55, 48, 48, 48, 48, 48, 48, 48, 48] := by decide
example : parse10 (dec10 1700000015 ++ uptSfx) = 1700000015 := by decide
example : crc32_iso_hdlc [] = 0 := by decide
example : (upload_one_chunk_ref (mkHeader 5 21 16000 1 ++ [7]) 0 1).length = 2 := by
  decide

/-! ## Byte-level lemmas -/

theorem u32le_length (v : Nat) : (u32le v).length = 4 := rfl

theorem mkHeader_length (ts c sr ds : Nat) : (mkHeader ts c sr ds).length = 17 := rfl

/-- Reading back a little-endian u32 written at offset 4 after a 4-byte
prefix returns the value reduced mod 2^32. -/
theorem readU32_pre4 (pre : List Nat) (v : Nat) (r : List Nat)
    (hpre : pre.length = 4) : readU32 (pre ++ (u32le v ++ r)) 4 = v % 2 ^ 32 := by
  match pre, hpre with
  | [a, b, c, d], _ =>
    simp only [readU32, u32le, List.cons_append, List.nil_append,
      List.getD_cons_succ, List.getD_cons_zero]
    omega

theorem readU32_mkHeader_ts (ts c sr ds : Nat) (body : List Nat) :
    readU32 (mkHeader ts c sr ds ++ body) 4 = ts % 2 ^ 32 := by
  have h : mkHeader ts c sr ds ++ body
      = rcloMagic ++ (u32le ts ++ ([c % 256] ++ u32le sr ++ u32le ds ++ body)) := by
    simp [mkHeader, List.append_assoc]
  rw [h, readU32_pre4 _ _ _ (by decide)]

theorem readU32_mkHeader_ds (ts c sr ds : Nat) (body : List Nat) :
    readU32 (mkHeader ts c sr ds ++ body) 13 = ds % 2 ^ 32 := by
  match body with
  | body =>
    simp only [mkHeader, rcloMagic, u32le, readU32, List.cons_append, List.nil_append,
      List.getD_cons_succ, List.getD_cons_zero]
    omega

theorem drop17_mkHeader (ts c sr ds : Nat) (body : List Nat) :
    (mkHeader ts c sr ds ++ body).drop 17 = body := by
  simp only [mkHeader, rcloMagic, u32le, List.cons_append, List.nil_append, List.drop_succ_cons,
    List.drop_zero]

theorem take4_mkHeader (ts c sr ds : Nat) (body : List Nat) :
    (mkHeader ts c sr ds ++ body).take 4 = rcloMagic := by
  simp only [mkHeader, rcloMagic, u32le, List.cons_append, List.nil_append, List.take_succ_cons,
    List.take_zero]

theorem length_mkHeader_append (ts c sr ds : Nat) (body : List Nat) :
    (mkHeader ts c sr ds ++ body).length = 17 + body.length := by
  simp [mkHeader, u32le, rcloMagic]
  omega

/-- `readU32` on a patched header reads back the patched value. -/
theorem readU32_patchTs (content : List Nat) (v : Nat) (h4 : 4 ≤ content.length) :
    readU32 (patchTs content v) 4 = v % 2 ^ 32 := by
  have hlen : (content.take 4).length = 4 := by
    simp [List.length_take]; omega
  rw [patchTs, List.append_assoc, readU32_pre4 _ _ _ hlen]

/-! ## Filename lemmas -/

theorem dec10_length (n : Nat) : (dec10 n).length = 10 := rfl

theorem parseDigitsAux_digits (ds : List Nat) (acc : Nat) (h : ∀ d ∈ ds, d < 10) :
    parseDigitsAux (ds.map (fun d => 48 + d)) acc
      = ds.foldl (fun a d => a * 10 + d) acc := by
  induction ds generalizing acc with
  | nil => rfl
  | cons d rest ih =>
    have hd : d < 10 := h d (List.mem_cons_self d rest)
    have hrest : ∀ x ∈ rest, x < 10 := fun x hx => h x (List.mem_cons_of_mem d hx)
    simp only [List.map_cons, parseDigitsAux, List.foldl_cons]
    rw [if_pos (by omega)]
    have : 48 + d - 48 = d := by omega
    rw [this, ih _ hrest]

/-- Parsing the 10-digit rendering of `n < 10^10` recovers `n`, whatever
follows the digits. -/
theorem parse10_dec10 (n : Nat) (hn : n < 10 ^ 10) (s : List Nat) :
    parse10 (dec10 n ++ s) = n := by
  have htake : (dec10 n ++ s).take 10 = dec10 n := by
    have := List.take_left (dec10 n) s
    rwa [dec10_length] at this
  rw [parse10, htake, dec10, parseDigitsAux_digits]
  · simp only [digitsOf, List.foldl_cons, List.foldl_nil]
    omega
  · intro d hd
    simp only [digitsOf, List.mem_cons, List.not_mem_nil, or_false] at hd
    rcases hd with h | h | h | h | h | h | h | h | h | h <;> omega

/-! ## CRC lemmas -/

theorem crcBit_lt (crc : Nat) (h : crc < 2 ^ 32) : crcBit crc < 2 ^ 32 := by
  unfold crcBit
  split
  · exact Nat.xor_lt_two_pow (by omega) (by norm_num)
  · omega

theorem crcByte_lt (crc b : Nat) (h : crc < 2 ^ 32) : crcByte crc b < 2 ^ 32 := by
  unfold crcByte
  have h0 : crc ^^^ b % 256 < 2 ^ 32 :=
    Nat.xor_lt_two_pow h (by have := Nat.mod_lt b (show 0 < 256 by norm_num); omega)
  exact crcBit_lt _ (crcBit_lt _ (crcBit_lt _ (crcBit_lt _ (crcBit_lt _
    (crcBit_lt _ (crcBit_lt _ (crcBit_lt _ h0)))))))

theorem crcRaw_lt (crc : Nat) (data : List Nat) (h : crc < 2 ^ 32) :
    crcRaw crc data < 2 ^ 32 := by
  induction data generalizing crc with
  | nil => exact h
  | cons b rest ih => exact ih _ (crcByte_lt _ _ h)

theorem xor32_lt (a : Nat) (h : a < 2 ^ 32) : xor32 a < 2 ^ 32 :=
  Nat.xor_lt_two_pow h (by norm_num)

theorem xor32_xor32 (a : Nat) : xor32 (xor32 a) = a :=
  Nat.xor_cancel_right _ _

theorem crcRaw_append (crc : Nat) (a b : List Nat) :
    crcRaw crc (a ++ b) = crcRaw (crcRaw crc a) b := by
  simp [crcRaw, List.foldl_append]

/-- Chaining `crc32_ieee_update` calls equals one call on the
concatenation (the complement cancels between calls). -/
theorem crc32_ieee_update_chain (a b : List Nat) :
    crc32_ieee_update (crc32_ieee_update 0 a) b = crc32_ieee_update 0 (a ++ b) := by
  have hlt : crcRaw (xor32 (0 % 2 ^ 32)) a < 2 ^ 32 :=
    crcRaw_lt _ _ (xor32_lt _ (by norm_num))
  have hx : xor32 (crcRaw (xor32 (0 % 2 ^ 32)) a) < 2 ^ 32 := xor32_lt _ hlt
  simp only [crc32_ieee_update, Nat.mod_eq_of_lt hx, xor32_xor32, crcRaw_append]

/-- The 256-byte CRC read loop computes the one-shot checksum of the
suffix it is given. -/
theorem crcLoop_eq (fuel : Nat) (acc rest : List Nat) (hfuel : rest.length ≤ fuel) :
    crcLoop fuel (crc32_ieee_update 0 acc) rest = crc32_ieee_update 0 (acc ++ rest) := by
  induction fuel generalizing acc rest with
  | zero =>
    match rest, hfuel with
    | [], _ => simp [crcLoop]
  | succ fuel ih =>
    match rest with
    | [] => simp [crcLoop]
    | r :: rs =>
      have hstep : crcLoop (fuel + 1) (crc32_ieee_update 0 acc) (r :: rs) =
          crcLoop fuel (crc32_ieee_update (crc32_ieee_update 0 acc) ((r :: rs).take 256))
            ((r :: rs).drop 256) := rfl
      rw [hstep, crc32_ieee_update_chain,
        ih _ _ (by simp only [List.length_drop, List.length_cons] at hfuel ⊢; omega),
        List.append_assoc, List.take_append_drop]

/-- `upload_one_chunk`'s CRC equals the standard CRC-32/ISO-HDLC of the
whole body. -/
theorem crcBody_eq (body : List Nat) : crcBody body = crc32_iso_hdlc body := by
  have h := crcLoop_eq body.length [] body (Nat.le_refl _)
  simpa [crcBody, crc32_iso_hdlc, show crc32_ieee_update 0 [] = 0 from by decide] using h

/-! ## CHUNK_DATA loop lemmas -/

/-- Number of CHUNK_DATA packets emitted for a body: `⌈len / 229⌉`. -/
theorem dataPackets_length (ts idx tot tseq : Nat) (fuel sq : Nat) (rest : List Nat)
    (hfuel : rest.length ≤ fuel) :
    (dataPackets ts idx tot tseq fuel sq rest).length = (rest.length + 228) / 229 := by
  induction fuel generalizing sq rest with
  | zero =>
    match rest, hfuel with
    | [], _ => rfl
  | succ fuel ih =>
    match rest with
    | [] => rfl
    | r :: rs =>
      have hstep : dataPackets ts idx tot tseq (fuel + 1) sq (r :: rs) =
          mkDataPacket ts idx tot tseq sq ((r :: rs).take 229)
            :: dataPackets ts idx tot tseq fuel (sq + 1) ((r :: rs).drop 229) := rfl
      rw [hstep, List.length_cons,
        ih _ _ (by simp only [List.length_drop, List.length_cons] at hfuel ⊢; omega)]
      simp only [List.length_drop, List.length_cons]
      omega

/-- The `seq` fields of the CHUNK_DATA packets are the consecutive values
`sq, sq+1, …` (each truncated to `uint16`). -/
theorem dataPackets_map_seq (ts idx tot tseq : Nat) (fuel sq : Nat) (rest : List Nat)
    (hfuel : rest.length ≤ fuel) :
    (dataPackets ts idx tot tseq fuel sq rest).map Packet.seq
      = (List.range' sq ((rest.length + 228) / 229)).map (fun x => x % 2 ^ 16) := by
  induction fuel generalizing sq rest with
  | zero =>
    match rest, hfuel with
    | [], _ => rfl
  | succ fuel ih =>
    match rest with
    | [] => rfl
    | r :: rs =>
      have hstep : dataPackets ts idx tot tseq (fuel + 1) sq (r :: rs) =
          mkDataPacket ts idx tot tseq sq ((r :: rs).take 229)
            :: dataPackets ts idx tot tseq fuel (sq + 1) ((r :: rs).drop 229) := rfl
      have hc : ((r :: rs).length + 228) / 229
          = (((r :: rs).drop 229).length + 228) / 229 + 1 := by
        simp only [List.length_drop, List.length_cons]
        omega
      rw [hstep, List.map_cons,
        ih _ _ (by simp only [List.length_drop, List.length_cons] at hfuel ⊢; omega),
        hc, List.range'_succ]
      rfl

/-- Every packet of the CHUNK_DATA loop is a data packet of the given
chunk. -/
theorem dataPackets_mem (ts idx tot tseq : Nat) (fuel sq : Nat) (rest : List Nat)
    (p : Packet) (hp : p ∈ dataPackets ts idx tot tseq fuel sq rest) :
    p.pkt_type = 2 ∧ p.chunk_ts = ts ∧ p.chunk_idx = idx ∧ p.total_seqs = tseq := by
  induction fuel generalizing sq rest with
  | zero => simp [dataPackets] at hp
  | succ fuel ih =>
    match rest with
    | [] => simp [dataPackets] at hp
    | r :: rs =>
      have hstep : dataPackets ts idx tot tseq (fuel + 1) sq (r :: rs) =
          mkDataPacket ts idx tot tseq sq ((r :: rs).take 229)
            :: dataPackets ts idx tot tseq fuel (sq + 1) ((r :: rs).drop 229) := rfl
      rw [hstep] at hp
      rcases List.mem_cons.mp hp with h | h
      · subst h; exact ⟨rfl, rfl, rfl, rfl⟩
      · exact ih _ _ h

/-- Trimming each CHUNK_DATA payload to `payload_len` and concatenating
recovers the body exactly. -/
theorem dataPackets_payload_flatten (ts idx tot tseq : Nat) (fuel sq : Nat)
    (rest : List Nat) (hfuel : rest.length ≤ fuel) :
    ((dataPackets ts idx tot tseq fuel sq rest).map
        (fun p => p.payload.take p.payload_len)).flatten = rest := by
  induction fuel generalizing sq rest with
  | zero =>
    match rest, hfuel with
    | [], _ => rfl
  | succ fuel ih =>
    match rest with
    | [] => rfl
    | r :: rs =>
      have hstep : dataPackets ts idx tot tseq (fuel + 1) sq (r :: rs) =
          mkDataPacket ts idx tot tseq sq ((r :: rs).take 229)
            :: dataPackets ts idx tot tseq fuel (sq + 1) ((r :: rs).drop 229) := rfl
      have htrim : (padTo 229 ((r :: rs).take 229)).take ((r :: rs).take 229).length
          = (r :: rs).take 229 := by
        rw [padTo]
        exact List.take_left _ _
      rw [hstep, List.map_cons, List.flatten_cons]
      show (padTo 229 ((r :: rs).take 229)).take ((r :: rs).take 229).length ++ _ = _
      rw [htrim, ih _ _ (by simp only [List.length_drop, List.length_cons] at hfuel ⊢; omega),
        List.take_append_drop]

/-- Truncating each element of a small consecutive range to `uint16` is
the identity. -/
theorem range'_map_mod (s n : Nat) (h : s + n ≤ 2 ^ 16) :
    (List.range' s n).map (fun x => x % 2 ^ 16) = List.range' s n := by
  induction n generalizing s with
  | zero => rfl
  | succ n ih =>
    rw [List.range'_succ, List.map_cons, Nat.mod_eq_of_lt (by omega), ih _ (by omega)]

/-! ## `upload_one_chunk` shape lemmas -/

/-- The emitting case of `upload_one_chunk`. -/
theorem upload_one_chunk_pos (c : List Nat) (i t : Nat) (h17 : 17 ≤ c.length)
    (hm : c.take 4 = rcloMagic) (hds : dsOf c ≠ 0) :
    upload_one_chunk c i t = hdrPktW (dsOf c) c i t ::
      dataPackets (readU32 c 4) (i % 2 ^ 16) (t % 2 ^ 16) (totalSeqs (dsOf c))
        (c.drop 17).length 1 (c.drop 17) := by
  rw [upload_one_chunk, if_neg (by omega), if_neg (by simp [hm]), if_neg hds]

/-- Any `upload_one_chunk` output is either empty or a CHUNK_HEADER
followed by CHUNK_DATA packets carrying the header's `chunk_ts`. -/
theorem upload_one_chunk_shape (c : List Nat) (i t : Nat) :
    upload_one_chunk c i t = [] ∨
      ∃ hdr dps, upload_one_chunk c i t = hdr :: dps ∧ hdr.pkt_type = 1 ∧
        ∀ p ∈ dps, p.pkt_type = 2 ∧ p.chunk_ts = hdr.chunk_ts := by
  by_cases h17 : c.length < 17
  · left; rw [upload_one_chunk, if_pos h17]
  · by_cases hm : c.take 4 = rcloMagic
    · by_cases hds : dsOf c = 0
      · left; rw [upload_one_chunk, if_neg h17, if_neg (by simp [hm]), if_pos hds]
      · right
        refine ⟨_, _, upload_one_chunk_pos c i t (by omega) hm hds, rfl, ?_⟩
        intro p hp
        have := dataPackets_mem _ _ _ _ _ _ _ p hp
        exact ⟨this.1, this.2.1⟩
    · left; rw [upload_one_chunk, if_neg h17, if_pos (by simp [hm])]

/-- Every packet emitted by `upload_one_chunk` carries the chunk index it
was called with (truncated to `uint16`). -/
theorem upload_one_chunk_idx (c : List Nat) (i t : Nat) (p : Packet)
    (hp : p ∈ upload_one_chunk c i t) : p.chunk_idx = i % 2 ^ 16 := by
  by_cases h17 : c.length < 17
  · rw [upload_one_chunk, if_pos h17] at hp; simp at hp
  · by_cases hm : c.take 4 = rcloMagic
    · by_cases hds : dsOf c = 0
      · rw [upload_one_chunk, if_neg h17, if_neg (by simp [hm]), if_pos hds] at hp
        simp at hp
      · rw [upload_one_chunk_pos c i t (by omega) hm hds] at hp
        rcases List.mem_cons.mp hp with h | h
        · subst h; rfl
        · exact (dataPackets_mem _ _ _ _ _ _ _ p h).2.2.1
    · rw [upload_one_chunk, if_neg h17, if_pos (by simp [hm])] at hp; simp at hp

/-- Every packet emitted by `upload_one_chunk` is a header or a data
packet (never UPLOAD_DONE). -/
theorem upload_one_chunk_types (c : List Nat) (i t : Nat) (p : Packet)
    (hp : p ∈ upload_one_chunk c i t) : p.pkt_type = 1 ∨ p.pkt_type = 2 := by
  rcases upload_one_chunk_shape c i t with h | ⟨hdr, dps, heq, h1, h2⟩
  · rw [h] at hp; simp at hp
  · rw [heq] at hp
    rcases List.mem_cons.mp hp with h | h
    · left; rw [h]; exact h1
    · right; exact (h2 p h).1

/-! ## Enumeration lemmas -/

/-- The omi enumeration loop keeps exactly the first `room` regular files
whose name passes `isBinName`, in directory order. -/
theorem enumBinF_eq (ents : List FsEntry) (room : Nat) :
    enumBinF ents room
      = ((ents.filter (fun e => e.isFile && decide (isBinName e.name)))).take room := by
  induction ents generalizing room with
  | nil => simp [enumBinF]
  | cons e rest ih =>
    by_cases hroom : room = 0
    · subst hroom; simp [enumBinF]
    · by_cases hkeep : e.isFile ∧ isBinName e.name
      · rw [enumBinF, if_neg hroom, if_pos hkeep, ih]
        have hb : (e.isFile && decide (isBinName e.name)) = true := by
          simp [hkeep.1, hkeep.2]
        obtain ⟨r, rfl⟩ : ∃ r, room = r + 1 := ⟨room - 1, by omega⟩
        simp [List.filter_cons, hb]
      · rw [enumBinF, if_neg hroom, if_neg hkeep, ih]
        have hb : (e.isFile && decide (isBinName e.name)) = false := by
          rcases Decidable.not_and_iff_or_not.mp hkeep with h | h <;> simp [h]
        simp [List.filter_cons, hb]

/-- The reference enumeration loop keeps the first `room` regular files —
any name, any suffix. -/
theorem enumAllF_eq (ents : List FsEntry) (room : Nat) :
    enumAllF ents room = (ents.filter (fun e => e.isFile)).take room := by
  induction ents generalizing room with
  | nil => simp [enumAllF]
  | cons e rest ih =>
    by_cases hroom : room = 0
    · subst hroom; simp [enumAllF]
    · by_cases hkeep : e.isFile
      · rw [enumAllF, if_neg hroom, if_pos hkeep, ih]
        obtain ⟨r, rfl⟩ : ∃ r, room = r + 1 := ⟨room - 1, by omega⟩
        simp [List.filter_cons, hkeep]
      · rw [enumAllF, if_neg hroom, if_neg hkeep, ih]
        simp [List.filter_cons, hkeep]

/-! ## Batch-level lemmas -/

/-- Under consistency, a non-skipped chunk's effective data size is its
body length. -/
theorem dsOf_of_consistent (c : List Nat) (_h17 : 17 ≤ c.length)
    (hcons : readU32 c 13 = c.length - 17 ∨ readU32 c 13 = 0) (hpos : dsOf c ≠ 0) :
    dsOf c = (c.drop 17).length := by
  rw [List.length_drop, dsOf]
  rw [dsOf] at hpos
  by_cases hz : readU32 c 13 = 0
  · rw [if_pos hz] at hpos ⊢
    by_cases hgt : 17 < c.length
    · rw [if_pos hgt]
    · rw [if_neg hgt] at hpos
      exact absurd rfl hpos
  · rw [if_neg hz] at hpos ⊢
    rcases hcons with h | h
    · exact h
    · exact absurd h hz

/-- The fully-resolved emitting case of `upload_one_chunk` for a
consistent chunk file: one header with index `i` and `1 + n` total seqs,
then data packets with `seq` exactly `1..n` where `n = ⌈body / 229⌉`. -/
theorem upload_one_chunk_resolved (c : List Nat) (i t : Nat)
    (hc : sizeConsistent c) (hi : i < 2 ^ 16) :
    upload_one_chunk c i t = [] ∨
      ∃ hdr dps n, upload_one_chunk c i t = hdr :: dps ∧
        hdr.pkt_type = 1 ∧ hdr.chunk_idx = i ∧ hdr.total_seqs = 1 + n ∧
        (∀ p ∈ dps, p.pkt_type = 2 ∧ p.chunk_idx = i) ∧
        dps.map Packet.seq = List.range' 1 n := by
  by_cases h17 : c.length < 17
  · left; rw [upload_one_chunk, if_pos h17]
  · by_cases hm : c.take 4 = rcloMagic
    · by_cases hds : dsOf c = 0
      · left; rw [upload_one_chunk, if_neg h17, if_neg (by simp [hm]), if_pos hds]
      · right
        obtain ⟨hcons, hbound⟩ := hc
        have hL : dsOf c = (c.drop 17).length :=
          dsOf_of_consistent c (by omega) hcons hds
        have hLb : (c.drop 17).length ≤ 229 * 65534 := by
          rw [List.length_drop]; omega
        set n := ((c.drop 17).length + 228) / 229 with hn
        have hnb : n ≤ 65534 := by omega
        have htot : totalSeqs (dsOf c) = 1 + n := by
          rw [totalSeqs, dataSeqs, hL, ← hn, Nat.mod_eq_of_lt (by omega),
            Nat.mod_eq_of_lt (by omega)]
        refine ⟨_, _, n, upload_one_chunk_pos c i t (by omega) hm hds, rfl, ?_, ?_, ?_, ?_⟩
        · show i % 2 ^ 16 = i
          exact Nat.mod_eq_of_lt hi
        · show totalSeqs (dsOf c) = 1 + n
          exact htot
        · intro p hp
          have := dataPackets_mem _ _ _ _ _ _ _ p hp
          exact ⟨this.1, by rw [this.2.2.1, Nat.mod_eq_of_lt hi]⟩
        · rw [dataPackets_map_seq _ _ _ _ _ _ _ (Nat.le_refl _), ← hn,
            range'_map_mod 1 n (by omega)]
    · left; rw [upload_one_chunk, if_neg h17, if_pos (by simp [hm])]

/-- Every packet of a batch segment has chunk index at least the starting
index. -/
theorem uploadAll_idx_ge (total : Nat) (files : List FsEntry) (i : Nat)
    (hb : i + files.length ≤ 2 ^ 16) (p : Packet)
    (hp : p ∈ uploadAll total i files) : i ≤ p.chunk_idx := by
  induction files generalizing i with
  | nil => simp [uploadAll] at hp
  | cons f rest ih =>
    rw [uploadAll] at hp
    rcases List.mem_append.mp hp with h | h
    · rw [upload_one_chunk_idx f.content i total p h,
        Nat.mod_eq_of_lt (by simp at hb; omega)]
    · have := ih (i + 1) (by simp at hb ⊢; omega) h
      omega

/-- Every packet of a batch segment is a header or data packet. -/
theorem uploadAll_types (total : Nat) (files : List FsEntry) (i : Nat) (p : Packet)
    (hp : p ∈ uploadAll total i files) : p.pkt_type = 1 ∨ p.pkt_type = 2 := by
  induction files generalizing i with
  | nil => simp [uploadAll] at hp
  | cons f rest ih =>
    rw [uploadAll] at hp
    rcases List.mem_append.mp hp with h | h
    · exact upload_one_chunk_types f.content i total p h
    · exact ih (i + 1) h

/-- Prepending a well-shaped chunk block preserves `hdrBefore`. -/
theorem hdrBefore_append (block m : List Packet)
    (hblock : block = [] ∨ ∃ hdr dps, block = hdr :: dps ∧ hdr.pkt_type = 1 ∧
      ∀ p ∈ dps, p.pkt_type = 2 ∧ p.chunk_ts = hdr.chunk_ts)
    (hm : hdrBefore m) : hdrBefore (block ++ m) := by
  intro pre p post heq htype
  rcases List.append_eq_append_iff.mp heq.symm with ⟨a', hc, hb⟩ | ⟨c', hc, hd⟩
  · match a', hb with
    | [], hb =>
      rcases hm [] p post (by simpa using hb.symm) htype with ⟨h, hmem, _⟩
      exact absurd hmem (List.not_mem_nil h)
    | q :: a'', hb =>
      obtain ⟨hpq, hpost⟩ := List.cons_eq_cons.mp hb
      subst hpq
      rcases hblock with hnil | ⟨hdr, dps, hbeq, h1, h2⟩
      · rw [hnil] at hc
        have hlen := congrArg List.length hc
        simp only [List.length_nil, List.length_append, List.length_cons] at hlen
        omega
      · have hc' : hdr :: dps = pre ++ p :: a'' := hbeq.symm.trans hc
        rcases pre with _ | ⟨x, pre'⟩
        · simp only [List.nil_append] at hc'
          have hhp : hdr = p := (List.cons_eq_cons.mp hc').1
          rw [hhp] at h1
          omega
        · rw [List.cons_append] at hc'
          obtain ⟨hx, hdps⟩ := List.cons_eq_cons.mp hc'
          have hpmem : p ∈ dps := by rw [hdps]; simp
          refine ⟨x, List.mem_cons_self x pre', ?_, ?_⟩
          · rw [← hx]; exact h1
          · rw [← hx]
            exact ((h2 p hpmem).2).symm
  · rcases hm c' p post hd htype with ⟨h, hmem, hprops⟩
    exact ⟨h, by rw [hc]; exact List.mem_append_right _ hmem, hprops⟩

/-- The terminal UPLOAD_DONE alone satisfies `hdrBefore`. -/
theorem hdrBefore_done : hdrBefore [donePkt] := by
  intro pre p post heq htype
  match pre, heq with
  | [], heq =>
    have : p = donePkt := (List.cons_eq_cons.mp (by simpa using heq)).1.symm
    rw [this] at htype
    simp [donePkt] at htype
  | x :: pre', heq =>
    have hlen := congrArg List.length heq
    simp only [List.length_cons, List.length_append, List.length_nil] at hlen
    omega

/-- The whole batch tail (chunk blocks then UPLOAD_DONE) satisfies
`hdrBefore`. -/
theorem hdrBefore_uploadAll (total : Nat) (files : List FsEntry) (i : Nat) :
    hdrBefore (uploadAll total i files ++ [donePkt]) := by
  induction files generalizing i with
  | nil => simpa [uploadAll] using hdrBefore_done
  | cons f rest ih =>
    rw [uploadAll, List.append_assoc]
    exact hdrBefore_append _ _ (upload_one_chunk_shape f.content i total) (ih (i + 1))

/-- Data-packet `seq` exactness over a whole batch segment: for every
header packet, the data packets sharing its chunk index have `seq`
exactly `1..total_seqs − 1`. -/
theorem uploadAll_seq_exact (total : Nat) (files : List FsEntry) (i : Nat)
    (hg : ∀ f ∈ files, sizeConsistent f.content) (hb : i + files.length ≤ 2 ^ 16)
    (p : Packet) (hp : p ∈ uploadAll total i files) (htype : p.pkt_type = 1) :
    ((uploadAll total i files).filter
        (fun q => q.pkt_type == 2 && q.chunk_idx == p.chunk_idx)).map Packet.seq
      = List.range' 1 (p.total_seqs - 1) := by
  induction files generalizing i with
  | nil => simp [uploadAll] at hp
  | cons f rest ih =>
    have hi : i < 2 ^ 16 := by simp at hb; omega
    rw [uploadAll] at hp ⊢
    rw [List.filter_append]
    rcases List.mem_append.mp hp with hmem | hmem
    · rcases upload_one_chunk_resolved f.content i total
        (hg f (List.mem_cons_self f rest)) hi with hnil | ⟨hdr, dps, n, heq, h1, hidx, htot, hdat, hseq⟩
      · rw [hnil] at hmem; simp at hmem
      · rw [heq] at hmem
        have hphdr : p = hdr := by
          rcases List.mem_cons.mp hmem with h | h
          · exact h
          · have := (hdat p h).1
            omega
        subst hphdr
        have hblockf : (p.pkt_type == 2 && p.chunk_idx == p.chunk_idx) = false := by
          simp [h1]
        have hkeep : ∀ q ∈ dps,
            (q.pkt_type == 2 && q.chunk_idx == p.chunk_idx) = true := by
          intro q hq
          simp only [Bool.and_eq_true, beq_iff_eq]
          exact ⟨(hdat q hq).1, by rw [(hdat q hq).2, hidx]⟩
        have hfilter_rest :
            (uploadAll total (i + 1) rest).filter
              (fun q => q.pkt_type == 2 && q.chunk_idx == p.chunk_idx) = [] := by
          refine List.filter_eq_nil_iff.mpr ?_
          intro q hq
          have hge := uploadAll_idx_ge total rest (i + 1) (by simp at hb ⊢; omega) q hq
          simp only [Bool.and_eq_true, beq_iff_eq, not_and]
          intro _ hqc
          omega
        rw [heq, List.filter_cons, hblockf]
        simp only [Bool.false_eq_true, if_false]
        rw [List.filter_eq_self.mpr hkeep, hfilter_rest, List.append_nil, hseq, htot]
        simp
    · have hpidx : i + 1 ≤ p.chunk_idx :=
        uploadAll_idx_ge total rest (i + 1) (by simp at hb ⊢; omega) p hmem
      have hfilter_block :
          (upload_one_chunk f.content i total).filter
            (fun q => q.pkt_type == 2 && q.chunk_idx == p.chunk_idx) = [] := by
        refine List.filter_eq_nil_iff.mpr ?_
        intro q hq
        have hqidx := upload_one_chunk_idx f.content i total q hq
        rw [Nat.mod_eq_of_lt hi] at hqidx
        simp only [Bool.and_eq_true, beq_iff_eq, not_and]
        intro _ hqc
        omega
      rw [hfilter_block, List.nil_append]
      exact ih (i + 1) (fun g hgm => hg g (List.mem_cons_of_mem f hgm))
        (by simp at hb ⊢; omega) hmem
/-- Insertion keeps exactly the old elements plus the new one. -/
theorem insertByName_mem (f a : FsEntry) (l : List FsEntry)
    (h : a ∈ insertByName f l) : a = f ∨ a ∈ l := by
  induction l with
  | nil => simpa [insertByName] using h
  | cons g gs ih =>
    rw [insertByName] at h
    split at h
    · rcases List.mem_cons.mp h with h1 | h1
      · left; exact h1
      · right; exact h1
    · rcases List.mem_cons.mp h with h1 | h1
      · right; rw [h1]; exact List.mem_cons_self g gs
      · rcases ih h1 with h2 | h2
        · left; exact h2
        · right; exact List.mem_cons_of_mem g h2

theorem insertByName_length (f : FsEntry) (l : List FsEntry) :
    (insertByName f l).length = l.length + 1 := by
  induction l with
  | nil => rfl
  | cons g gs ih =>
    rw [insertByName]
    split
    · rfl
    · simp only [List.length_cons, ih]

theorem sortFiles_foldl_mem (fs : List FsEntry) (acc : List FsEntry) (a : FsEntry)
    (h : a ∈ fs.foldl (fun acc f => insertByName f acc) acc) : a ∈ acc ∨ a ∈ fs := by
  induction fs generalizing acc with
  | nil => left; simpa using h
  | cons f rest ih =>
    rcases ih (insertByName f acc) h with h1 | h1
    · rcases insertByName_mem f a acc h1 with h2 | h2
      · right; rw [h2]; exact List.mem_cons_self f rest
      · left; exact h2
    · right; exact List.mem_cons_of_mem f h1

/-- The insertion sort permutes: its output draws from its input. -/
theorem sortFiles_mem (fs : List FsEntry) (a : FsEntry) (h : a ∈ sortFiles fs) :
    a ∈ fs := by
  rcases sortFiles_foldl_mem fs [] a h with h1 | h1
  · simp at h1
  · exact h1

theorem sortFiles_foldl_length (fs : List FsEntry) (acc : List FsEntry) :
    (fs.foldl (fun acc f => insertByName f acc) acc).length = acc.length + fs.length := by
  induction fs generalizing acc with
  | nil => rfl
  | cons f rest ih =>
    rw [List.foldl_cons, ih, insertByName_length]
    simp only [List.length_cons]
    omega

theorem sortFiles_length (fs : List FsEntry) : (sortFiles fs).length = fs.length := by
  rw [sortFiles, sortFiles_foldl_length]
  simp

/-- Enumerated entries come from the directory. -/
theorem enumBinF_subset (ents : List FsEntry) (room : Nat) (a : FsEntry)
    (h : a ∈ enumBinF ents room) : a ∈ ents := by
  rw [enumBinF_eq] at h
  exact List.mem_of_mem_filter (List.take_subset _ _ h)

theorem enumBinF_length_le (ents : List FsEntry) (room : Nat) :
    (enumBinF ents room).length ≤ room := by
  rw [enumBinF_eq]
  calc ((ents.filter _).take room).length ≤ room := by
        rw [List.length_take]; omega

/-- `seq` exactness lifted to a whole batch (segment plus UPLOAD_DONE). -/
theorem batch_seq_exact (total : Nat) (files : List FsEntry) (i : Nat)
    (hg : ∀ f ∈ files, sizeConsistent f.content) (hb : i + files.length ≤ 2 ^ 16)
    (p : Packet) (hp : p ∈ uploadAll total i files ++ [donePkt]) (htype : p.pkt_type = 1) :
    ((uploadAll total i files ++ [donePkt]).filter
        (fun q => q.pkt_type == 2 && q.chunk_idx == p.chunk_idx)).map Packet.seq
      = List.range' 1 (p.total_seqs - 1) := by
  have hpu : p ∈ uploadAll total i files := by
    rcases List.mem_append.mp hp with h | h
    · exact h
    · rcases List.mem_singleton.mp h with rfl
      simp [donePkt] at htype
  have hdone : ([donePkt].filter
      (fun q => q.pkt_type == 2 && q.chunk_idx == p.chunk_idx)) = [] := by
    simp [donePkt]
  rw [List.filter_append, hdone, List.append_nil]
  exact uploadAll_seq_exact total files i hg hb p hpu htype

/-- A batch contains exactly one UPLOAD_DONE packet, and it is last. -/
theorem batch_done_unique (total : Nat) (files : List FsEntry) (i : Nat) :
    ((uploadAll total i files ++ [donePkt]).filter
        (fun q => q.pkt_type == 3)).length = 1 ∧
      (uploadAll total i files ++ [donePkt]).getLast? = some donePkt := by
  constructor
  · have hnone : (uploadAll total i files).filter (fun q => q.pkt_type == 3) = [] := by
      refine List.filter_eq_nil_iff.mpr ?_
      intro q hq
      rcases uploadAll_types total files i q hq with h | h <;> simp [h]
    rw [List.filter_append, hnone, List.nil_append]
    simp [donePkt]
  · exact List.getLast?_concat _

theorem scanUpt_length_le (ents : List FsEntry) (room : Nat) :
    (scanUpt ents room).length ≤ room := by
  induction ents generalizing room with
  | nil => simp [scanUpt]
  | cons e rest ih =>
    by_cases hroom : room = 0
    · subst hroom; simp [scanUpt]
    · by_cases hkeep : e.isFile ∧ e.name.length = 14 ∧ e.name.drop 10 = uptSfx
      · rw [scanUpt, if_neg hroom, if_pos hkeep]
        have := ih (room - 1)
        simp only [List.length_cons]
        omega
      · rw [scanUpt, if_neg hroom, if_neg hkeep]
        exact ih room
/-! ## Packet-count lemmas (scenario S4) -/

/-- The packet types of the CHUNK_DATA loop: `⌈len / 229⌉` data packets. -/
theorem dataPackets_map_type (ts idx tot tseq : Nat) (fuel sq : Nat) (rest : List Nat)
    (hfuel : rest.length ≤ fuel) :
    (dataPackets ts idx tot tseq fuel sq rest).map Packet.pkt_type
      = List.replicate ((rest.length + 228) / 229) 2 := by
  refine List.eq_replicate_iff.mpr ⟨?_, ?_⟩
  · rw [List.length_map, dataPackets_length _ _ _ _ _ _ _ hfuel]
  · intro b hb
    rcases List.mem_map.mp hb with ⟨p, hp, rfl⟩
    exact (dataPackets_mem _ _ _ _ _ _ _ p hp).1

/-- Packet types emitted for one well-formed chunk file: a header then
`⌈L / 229⌉` data packets. -/
theorem upload_one_chunk_map_type (ts cd sr L : Nat) (body : List Nat) (i t : Nat)
    (hlen : body.length = L) (hL0 : 0 < L) (hL32 : L < 2 ^ 32) :
    (upload_one_chunk (mkHeader ts cd sr L ++ body) i t).map Packet.pkt_type
      = 1 :: List.replicate ((L + 228) / 229) 2 := by
  set c := mkHeader ts cd sr L ++ body with hc
  have hclen : c.length = 17 + L := by rw [hc, length_mkHeader_append, hlen]
  have hds0 : readU32 c 13 = L := by
    rw [hc, readU32_mkHeader_ds, Nat.mod_eq_of_lt hL32]
  have hds : dsOf c = L := by
    rw [dsOf, hds0, if_neg (by omega)]
  have hdrop : c.drop 17 = body := by rw [hc, drop17_mkHeader]
  rw [upload_one_chunk_pos c i t (by omega) (by rw [hc]; exact take4_mkHeader ts cd sr L body)
      (by omega), List.map_cons]
  rw [hdrop, dataPackets_map_type _ _ _ _ _ _ _ (Nat.le_refl _), hlen]
  rfl

/-- S4: the enumerator picks up exactly the two `.bin` files. -/
theorem s4_enum : enumBinF s4Store 64 = [s4e0, s4e1] := by
  have h0 : s4e0.isFile ∧ isBinName s4e0.name := ⟨rfl, by decide⟩
  have h1 : s4e1.isFile ∧ isBinName s4e1.name := ⟨rfl, by decide⟩
  show enumBinF (s4e0 :: s4e1 :: []) 64 = [s4e0, s4e1]
  rw [enumBinF, if_neg (by decide), if_pos h0,
      enumBinF, if_neg (by decide), if_pos h1, enumBinF]

/-- S4: the two names are already in ascending order. -/
theorem s4_sort : sortFiles [s4e0, s4e1] = [s4e0, s4e1] := by
  have hgt : strGt s4e0.name s4e1.name = false := by decide
  simp only [sortFiles, List.foldl_cons, List.foldl_nil, insertByName, hgt,
    Bool.false_eq_true, if_false]

/-- S4: the batch is a header, 44 data packets, a header, 55 data
packets, and UPLOAD_DONE — 102 packets. -/
theorem s4_batch_map_type :
    (upload_thread_batch s4Store).map Packet.pkt_type
      = [1] ++ List.replicate 44 2 ++ [1] ++ List.replicate 55 2 ++ [3] := by
  have hbatch : upload_thread_batch s4Store
      = uploadAll 2 0 [s4e0, s4e1] ++ [donePkt] := by
    simp only [upload_thread_batch, s4_enum, s4_sort, List.length_cons, List.length_nil]
  have h0 : (upload_one_chunk s4e0.content 0 2).map Packet.pkt_type
      = 1 :: List.replicate 44 2 := by
    have hmt := upload_one_chunk_map_type 1700000000 21 16000 10000
      (List.replicate 10000 7) 0 2 (by rw [List.length_replicate]) (by norm_num)
      (by norm_num)
    have hcontent : s4e0.content
        = mkHeader 1700000000 21 16000 10000 ++ List.replicate 10000 7 := rfl
    rw [hcontent, hmt, show (10000 + 228) / 229 = 44 from by norm_num]
  have h1 : (upload_one_chunk s4e1.content 1 2).map Packet.pkt_type
      = 1 :: List.replicate 55 2 := by
    have hmt := upload_one_chunk_map_type 1700000015 21 16000 12500
      (List.replicate 12500 7) 1 2 (by rw [List.length_replicate]) (by norm_num)
      (by norm_num)
    have hcontent : s4e1.content
        = mkHeader 1700000015 21 16000 12500 ++ List.replicate 12500 7 := rfl
    rw [hcontent, hmt, show (12500 + 228) / 229 = 55 from by norm_num]
  rw [hbatch]
  simp only [uploadAll, List.append_nil, List.map_append, h0, h1]
  rfl

theorem s4_batch_length : (upload_thread_batch s4Store).length = 102 := by
  have h := congrArg List.length s4_batch_map_type
  rw [List.length_map] at h
  rw [h]
  rfl

example : crc32_iso_hdlc [0] = 0xD202EF8D := by decide
example : crc32_claimed [0] = 0 := by decide
example : crcBody [0] = 0xD202EF8D := by decide
example : dataSeqs 10000 = 44 := by decide
example :
    (upload_one_chunk (mkHeader 5 21 16000 1 ++ [7]) 0 1).length = 2 := by decide
example :
    (upload_thread_batch [⟨dec10 5 ++ binSfx, true, mkHeader 5 21 16000 1 ++ [7]⟩]).length
      = 3 := by decide

/-- Taking the first 4 bytes of a zero-padded payload that starts with a
u32 field returns that field. -/
theorem padTo_take4 (x : Nat) (r : List Nat) :
    (padTo 229 (u32le x ++ r)).take 4 = u32le x := by
  rw [padTo, List.append_assoc, ← u32le_length x]
  exact List.take_left _ _

/-! # Claims -/

/-- C1, counterexample: with the time source synced (`now_s()` =
1700000050, uptime 50 s), the chunk opened by `open_chunk_file` is
tagged 50 (uptime), not `now_s()`, and finalizes under `.upt`, not
`.bin`. -/
theorem c1_sync_at_open_cex :
    (TimeSrc.mk 1700000000 0 true).synced = true ∧
    ¬ ((open_chunk_file (reclo_time_get ⟨1700000000, 0, true⟩ 50000) 50000).ts
          = reclo_time_get ⟨1700000000, 0, true⟩ 50000 ∧
        finalize_suffix (open_chunk_file (reclo_time_get ⟨1700000000, 0, true⟩ 50000) 50000)
          = Suffix.bin) := by decide

/-- C1, amended: whatever the state of the time source at open — even
synced — `open_chunk_file` ignores its wall-clock argument, tags the
chunk with uptime seconds, and marks it unsynced, so a chunk finalized in
that state is published under `.upt`.  (Only an intervening retimestamp
of the open file clears the flag and yields `.bin`.) -/
theorem c1_open_always_uptime (t : TimeSrc) (up_ms : Nat) (_hs : t.synced = true) :
    (open_chunk_file (reclo_time_get t up_ms) up_ms).ts = up_ms / 1000 % 2 ^ 32 ∧
    (open_chunk_file (reclo_time_get t up_ms) up_ms).unsynced = true ∧
    finalize_suffix (open_chunk_file (reclo_time_get t up_ms) up_ms) = Suffix.upt :=
  ⟨rfl, rfl, rfl⟩

theorem c1_open_always_uptime_witness :
    (TimeSrc.mk 1700000000 0 true).synced = true ∧
    ((open_chunk_file (reclo_time_get ⟨1700000000, 0, true⟩ 50000) 50000).ts
        = 50000 / 1000 % 2 ^ 32 ∧
      (open_chunk_file (reclo_time_get ⟨1700000000, 0, true⟩ 50000) 50000).unsynced = true ∧
      finalize_suffix (open_chunk_file (reclo_time_get ⟨1700000000, 0, true⟩ 50000) 50000)
        = Suffix.upt) :=
  ⟨rfl, c1_open_always_uptime ⟨1700000000, 0, true⟩ 50000 rfl⟩

/-- C2, counterexample: the upload enumerator of the omi firmware
includes the 7-character file `"abc.bin"`, although its name does not
have length 14 (nor a 10-digit prefix). -/
theorem c2_enumeration_cex :
    (enumBinF c2CexStore 64).map FsEntry.name = [[97, 98, 99] ++ binSfx] ∧
    ([97, 98, 99] ++ binSfx).length ≠ 14 := by decide

/-- C2, amended: the omi enumerator considers exactly the first (up to
`room` = 64) regular files whose name is longer than 4 characters and
ends in `".bin"` — there is no length-14 or all-digits check; the
reference-variant enumerator considers every regular file regardless of
its name. -/
theorem c2_enumeration_suffix_only :
    (∀ ents room, enumBinF ents room
        = (ents.filter (fun e => e.isFile && decide (isBinName e.name))).take room) ∧
    (∀ ents room, enumAllF ents room = (ents.filter (fun e => e.isFile)).take room) :=
  ⟨enumBinF_eq, enumAllF_eq⟩

/-- C3, counterexample: on a chunk file with valid header, `data_size`
field 0 and a 3-byte body, the reference variant's `upload_one_chunk`
sends a CHUNK_HEADER whose meta `data_size` is 0, not
`file_size − 17 = 3` — it performs no recovery. -/
theorem c3_recovery_cex :
    ((upload_one_chunk_ref c3CexFile 0 1).map (fun p => p.payload.take 4)).head?
        = some (u32le 0) ∧
    u32le 0 ≠ u32le (c3CexFile.length - 17) := by decide

/-- C3, amended: in the omi transfer implementation the claim holds as
stated — a valid-header chunk whose `data_size` field is 0 is uploaded
with `data_size = file_size − 17` (read from the CHUNK_HEADER meta
payload), and skipped with no packets when `file_size − 17` is also 0.
(The reference variant has no such recovery; see the counterexample.) -/
theorem c3_recovery_omi (c : List Nat) (i t : Nat) (_h17 : 17 ≤ c.length)
    (hm : c.take 4 = rcloMagic) (hds : readU32 c 13 = 0) :
    (c.length = 17 → upload_one_chunk c i t = []) ∧
    (17 < c.length →
      ((upload_one_chunk c i t).map (fun p => p.payload.take 4)).head?
        = some (u32le (c.length - 17))) := by
  constructor
  · intro hlen
    rw [upload_one_chunk, if_neg (by omega), if_neg (by simp [hm]),
      if_pos (by rw [dsOf, if_pos hds, if_neg (by omega)])]
  · intro hlt
    have hdsOf : dsOf c = c.length - 17 := by
      rw [dsOf, if_pos hds, if_pos hlt]
    rw [upload_one_chunk_pos c i t (by omega) hm (by rw [hdsOf]; omega)]
    simp only [List.map_cons, List.head?_cons, hdrPktW, chunkMetaW, hdsOf]
    rw [List.append_assoc, List.append_assoc, padTo_take4]

theorem c3_recovery_omi_witness :
    (17 ≤ (mkHeader 7 21 16000 0 ++ [5, 6]).length ∧
      (mkHeader 7 21 16000 0 ++ [5, 6]).take 4 = rcloMagic ∧
      readU32 (mkHeader 7 21 16000 0 ++ [5, 6]) 13 = 0) ∧
    (((mkHeader 7 21 16000 0 ++ [5, 6]).length = 17 →
        upload_one_chunk (mkHeader 7 21 16000 0 ++ [5, 6]) 0 1 = []) ∧
      (17 < (mkHeader 7 21 16000 0 ++ [5, 6]).length →
        ((upload_one_chunk (mkHeader 7 21 16000 0 ++ [5, 6]) 0 1).map
            (fun p => p.payload.take 4)).head?
          = some (u32le ((mkHeader 7 21 16000 0 ++ [5, 6]).length - 17)))) :=
  ⟨⟨by decide, by decide, by decide⟩,
    c3_recovery_omi (mkHeader 7 21 16000 0 ++ [5, 6]) 0 1 (by decide) (by decide) (by decide)⟩

/-- C4 (confirmed): in every complete upload batch over a store of
well-formed chunk files (header `data_size` equal to the body length or
0, bodies within the `uint16` sequence space), every CHUNK_DATA packet
is preceded by a CHUNK_HEADER with the same `chunk_ts`; for every
CHUNK_HEADER, the data packets of its chunk carry `seq` exactly
`1..total_seqs − 1`, strictly increasing with no gaps; and UPLOAD_DONE
appears exactly once, as the last packet of the batch. -/
theorem c4_batch_ordering (fs : List FsEntry)
    (hg : ∀ f ∈ fs, sizeConsistent f.content) :
    (∀ pre p post, upload_thread_batch fs = pre ++ p :: post → p.pkt_type = 2 →
        ∃ h ∈ pre, h.pkt_type = 1 ∧ h.chunk_ts = p.chunk_ts) ∧
    (∀ p ∈ upload_thread_batch fs, p.pkt_type = 1 →
        ((upload_thread_batch fs).filter
            (fun q => q.pkt_type == 2 && q.chunk_idx == p.chunk_idx)).map Packet.seq
          = List.range' 1 (p.total_seqs - 1)) ∧
    ((upload_thread_batch fs).filter (fun q => q.pkt_type == 3)).length = 1 ∧
    (upload_thread_batch fs).getLast? = some donePkt := by
  have hfiles_mem : ∀ f ∈ sortFiles (enumBinF fs 64), sizeConsistent f.content :=
    fun f hf => hg f (enumBinF_subset fs 64 f (sortFiles_mem _ f hf))
  have hlen : (sortFiles (enumBinF fs 64)).length ≤ 64 := by
    rw [sortFiles_length]; exact enumBinF_length_le fs 64
  have hb : 0 + (sortFiles (enumBinF fs 64)).length ≤ 2 ^ 16 := by
    have h16 : (2 : Nat) ^ 16 = 65536 := by norm_num
    omega
  have hbatch : upload_thread_batch fs
      = uploadAll (sortFiles (enumBinF fs 64)).length 0 (sortFiles (enumBinF fs 64))
          ++ [donePkt] := rfl
  refine ⟨?_, ?_, ?_, ?_⟩
  · rw [hbatch]
    exact hdrBefore_uploadAll _ _ 0
  · rw [hbatch]
    intro p hp htype
    exact batch_seq_exact _ _ 0 hfiles_mem hb p hp htype
  · rw [hbatch]
    exact (batch_done_unique _ _ 0).1
  · rw [hbatch]
    exact (batch_done_unique _ _ 0).2

theorem c4_batch_ordering_witness :
    (∀ f ∈ c4WitStore, sizeConsistent f.content) ∧
    ((∀ pre p post, upload_thread_batch c4WitStore = pre ++ p :: post → p.pkt_type = 2 →
        ∃ h ∈ pre, h.pkt_type = 1 ∧ h.chunk_ts = p.chunk_ts) ∧
      (∀ p ∈ upload_thread_batch c4WitStore, p.pkt_type = 1 →
        ((upload_thread_batch c4WitStore).filter
            (fun q => q.pkt_type == 2 && q.chunk_idx == p.chunk_idx)).map Packet.seq
          = List.range' 1 (p.total_seqs - 1)) ∧
      ((upload_thread_batch c4WitStore).filter (fun q => q.pkt_type == 3)).length = 1 ∧
      (upload_thread_batch c4WitStore).getLast? = some donePkt) :=
  ⟨by decide, c4_batch_ordering c4WitStore (by decide)⟩

/-- C5, counterexample: in scenario S4 (two `.bin` chunks with 10,000 and
12,500 body bytes) the batch holds 102 packets — ⌈10000/229⌉ is 44, not
45 — contradicting the claimed total of 103. -/
theorem c5_s4_packet_count_cex : (upload_thread_batch s4Store).length ≠ 103 := by
  rw [s4_batch_length]
  decide

/-- C5, amended: the device sends 1 CHUNK_HEADER plus
`⌈data_size / 229⌉` CHUNK_DATA packets per chunk (`total_seqs` = 1 +
data seqs); in scenario S4 the batch is, in order, header + 44 data
packets for chunk 0, header + 55 data packets for chunk 1, then
UPLOAD_DONE — 102 packets in total. -/
theorem c5_packet_count :
    (upload_thread_batch s4Store).map Packet.pkt_type
        = [1] ++ List.replicate 44 2 ++ [1] ++ List.replicate 55 2 ++ [3] ∧
    (upload_thread_batch s4Store).length = 102 ∧
    (∀ ds, 0 < ds → ds ≤ 229 * 65534 →
      ds ≤ 229 * dataSeqs ds ∧ 229 * dataSeqs ds < ds + 229 ∧
        totalSeqs ds = 1 + dataSeqs ds) := by
  refine ⟨s4_batch_map_type, s4_batch_length, ?_⟩
  intro ds h0 hbound
  have h16 : (2 : Nat) ^ 16 = 65536 := by norm_num
  rw [dataSeqs, totalSeqs, dataSeqs, h16]
  omega

theorem c5_packet_count_witness :
    (0 < 10000 ∧ 10000 ≤ 229 * 65534) ∧
    (10000 ≤ 229 * dataSeqs 10000 ∧ 229 * dataSeqs 10000 < 10000 + 229 ∧
      totalSeqs 10000 = 1 + dataSeqs 10000) :=
  ⟨⟨by decide, by decide⟩, c5_packet_count.2.2 10000 (by decide) (by decide)⟩

/-- The CRC field (payload bytes 9..12) of a CHUNK_HEADER packet. -/
theorem hdrPktW_crc_field (ds : Nat) (c : List Nat) (i t : Nat) :
    ((hdrPktW ds c i t).payload.drop 9).take 4 = u32le (crcBody (c.drop 17)) := by
  show ((padTo 229 (chunkMetaW ds c)).drop 9).take 4 = _
  rw [padTo, chunkMetaW,
    List.append_assoc (u32le ds ++ [c.getD 8 0] ++ u32le (readU32 c 9))]
  have h9 : (u32le ds ++ [c.getD 8 0] ++ u32le (readU32 c 9)).length = 9 := by
    simp [u32le]
  rw [List.drop_left' h9, List.take_left' (u32le_length (crcBody (c.drop 17)))]

/-- C6, counterexample: for the chunk file with body `[0x00]`, the CRC
field sent in the CHUNK_HEADER is not the checksum named by the claim's
parameters (polynomial 0xEDB88320 with initial value 0 and final XOR 0)
of the chunk's data payload bytes. -/
theorem c6_crc_params_cex :
    ((upload_one_chunk c6CexFile 0 1).map (fun p => (p.payload.drop 9).take 4)).head?
      ≠ some (u32le (crc32_claimed
          (((upload_one_chunk c6CexFile 0 1).tail.map
              (fun p => p.payload.take p.payload_len)).flatten))) := by decide

/-- C6, amended: for every chunk that is uploaded, the CRC field of its
CHUNK_HEADER equals CRC-32/ISO-HDLC — polynomial 0xEDB88320, initial
value 0xFFFFFFFF, final XOR 0xFFFFFFFF — computed over the concatenation
of the chunk's data payload bytes after trimming the zero padding. -/
theorem c6_crc_iso_hdlc (c : List Nat) (i t : Nat) (h : upload_one_chunk c i t ≠ []) :
    ((upload_one_chunk c i t).map (fun p => (p.payload.drop 9).take 4)).head?
      = some (u32le (crc32_iso_hdlc
          (((upload_one_chunk c i t).tail.map
              (fun p => p.payload.take p.payload_len)).flatten))) := by
  by_cases h17 : c.length < 17
  · exact absurd (by rw [upload_one_chunk, if_pos h17]) h
  · by_cases hm : c.take 4 = rcloMagic
    · by_cases hds : dsOf c = 0
      · exact absurd
          (by rw [upload_one_chunk, if_neg h17, if_neg (by simp [hm]), if_pos hds]) h
      · rw [upload_one_chunk_pos c i t (by omega) hm hds]
        simp only [List.map_cons, List.head?_cons, List.tail_cons]
        rw [hdrPktW_crc_field,
          dataPackets_payload_flatten _ _ _ _ _ _ _ (Nat.le_refl _), crcBody_eq]
    · exact absurd (by rw [upload_one_chunk, if_neg h17, if_pos (by simp [hm])]) h

theorem c6_crc_iso_hdlc_witness :
    upload_one_chunk c6CexFile 0 1 ≠ [] ∧
    ((upload_one_chunk c6CexFile 0 1).map (fun p => (p.payload.drop 9).take 4)).head?
      = some (u32le (crc32_iso_hdlc
          (((upload_one_chunk c6CexFile 0 1).tail.map
              (fun p => p.payload.take p.payload_len)).flatten))) :=
  ⟨by decide, c6_crc_iso_hdlc c6CexFile 0 1 (by decide)⟩

/-- The `ts` field survives the `data_size` back-fill of
`finalize_chunk`. -/
theorem finalize_publish_readU32 (c : RecorderChunk) (body : List Nat) (total : Nat) :
    readU32 (finalize_publish c body total).content 4 = c.ts % 2 ^ 32 := by
  have htake : (mkHeader c.ts 21 16000 0 ++ body).take 13
      = rcloMagic ++ (u32le c.ts ++ ([21 % 256] ++ u32le 16000)) := rfl
  show readU32 ((mkHeader c.ts 21 16000 0 ++ body).take 13
      ++ u32le (total % 2 ^ 32) ++ (mkHeader c.ts 21 16000 0 ++ body).drop 17) 4 = _
  rw [htake]
  simp only [List.append_assoc]
  rw [readU32_pre4 _ _ _ (by decide)]

/-- C7, counterexample: the file `0000000100.upt` satisfies the
name-equals-header-`ts` invariant, but after a retimestamper invocation
whose rename fails (`U = 50`, `W = 1000`) it keeps its `.upt` name while
its header now reads 1000 — the invariant is broken on that failure
path. -/
theorem c7_name_ts_invariant_cex :
    chunkInvariant c7CexFile ∧
    ¬ chunkInvariant (retimestamp_upt_file 50 1000 true false c7CexFile) := by decide

/-- C7, amended: the filename-prefix = header-`ts` invariant holds after
a store (`reclo_transfer_store_chunk`), after a publish
(`finalize_chunk`), and after a retimestamper invocation in which the
header patch and the rename both succeed; the retimestamper's failure
paths can break it. -/
theorem c7_name_matches_header :
    (∀ ts data, chunkInvariant (reclo_transfer_store_chunk ts data)) ∧
    (∀ c body total, c.ts < 2 ^ 32 → chunkInvariant (finalize_publish c body total)) ∧
    (∀ U W f, 4 ≤ f.content.length →
      chunkInvariant (retimestamp_upt_file U W true true f)) := by
  have h10 : (2 : Nat) ^ 32 < 10 ^ 10 := by norm_num
  refine ⟨?_, ?_, ?_⟩
  · intro ts data _
    show parse10 (dec10 (ts % 2 ^ 32) ++ binSfx)
        = readU32 (mkHeader (ts % 2 ^ 32) 20 16000 data.length ++ data) 4
    have hlt : ts % 2 ^ 32 < 2 ^ 32 := Nat.mod_lt _ (by norm_num)
    rw [parse10_dec10 _ (by omega), readU32_mkHeader_ts, Nat.mod_eq_of_lt hlt]
  · intro c body total hts _
    show parse10 (dec10 c.ts ++ _) = readU32 (finalize_publish c body total).content 4
    rw [parse10_dec10 _ (by omega), finalize_publish_readU32, Nat.mod_eq_of_lt hts]
  · intro U W f h4 _
    have hreal : retimestampRealTs U W (parse10 f.name % 2 ^ 32) < 2 ^ 32 := by
      rw [retimestampRealTs]
      exact Nat.mod_lt _ (by norm_num)
    show parse10 (dec10 (retimestampRealTs U W (parse10 f.name % 2 ^ 32)) ++ binSfx)
        = readU32 (patchTs f.content (retimestampRealTs U W (parse10 f.name % 2 ^ 32))) 4
    rw [parse10_dec10 _ (by omega), readU32_patchTs f.content _ h4,
      Nat.mod_eq_of_lt hreal]

theorem c7_name_matches_header_witness :
    chunkInvariant (reclo_transfer_store_chunk 12 [1, 2]) ∧
    ((RecorderChunk.mk 7 true).ts < 2 ^ 32 ∧
      chunkInvariant (finalize_publish ⟨7, true⟩ [1] 1)) ∧
    (4 ≤ c7CexFile.content.length ∧
      chunkInvariant (retimestamp_upt_file 50 1000 true true c7CexFile)) :=
  ⟨c7_name_matches_header.1 12 [1, 2],
    ⟨by decide, c7_name_matches_header.2.1 ⟨7, true⟩ [1] 1 (by decide)⟩,
    ⟨by decide, c7_name_matches_header.2.2 50 1000 c7CexFile (by decide)⟩⟩

/-- C8, counterexample: for `0000000100.upt` with `U = 50`, `W = 1000`
(the chunk's uptime tag exceeds the current uptime, as after a reboot),
the claim's formula `real_ts = W − (U − file_ts)` saturating at 0 gives
1050, but the code clamps the elapsed term instead and renames the file
to `1000` — the resulting name is not the claimed one. -/
theorem c8_retimestamp_formula_cex :
    (retimestamp_upt_file 50 1000 true true c8CexFile).name
      ≠ dec10 (((1000 : Int) - ((50 : Int) - (parse10 c8CexFile.name : Int))).toNat)
          ++ binSfx := by decide

/-- The `real_ts` computation without 32-bit wrap: the elapsed term
`U − file_ts` is clamped at 0 (natural subtraction), and when it does not
exceed `W` the result is `W − (U − file_ts)`. -/
theorem retimestampRealTs_eq (U W t : Nat) (hU : U < 2 ^ 32) (hW : W < 2 ^ 32)
    (ht : t < 2 ^ 32) (hwrap : U - t ≤ W) : retimestampRealTs U W t = W - (U - t) := by
  rw [retimestampRealTs, Nat.mod_eq_of_lt hU, Nat.mod_eq_of_lt hW, Nat.mod_eq_of_lt ht]
  omega

/-- C8, amended: after a retimestamper invocation with uptime `U` and
wall clock `W` (both `uint32`), every `.upt` file processed — the scan
takes at most `N_MAX = 64` files, rescheduling when 64 were collected —
whose header patch and rename succeed and whose tag `t` satisfies
`U − t ≤ W` (no 32-bit wrap) is renamed `{real_ts:010}.bin` with
`real_ts = W − max(U − t, 0)`; its header `ts` at offset 4 is rewritten
to `real_ts` (u32 LE), and `real_ts ≤ W`.  The saturation applies to the
elapsed term, not the whole expression. -/
theorem c8_retimestamp (U W t : Nat) (content : List Nat) (hU : U < 2 ^ 32)
    (hW : W < 2 ^ 32) (ht : t < 2 ^ 32) (hwrap : U - t ≤ W) (h4 : 4 ≤ content.length) :
    (retimestamp_upt_file U W true true ⟨dec10 t ++ uptSfx, true, content⟩).name
        = dec10 (W - (U - t)) ++ binSfx ∧
    readU32 (retimestamp_upt_file U W true true
        ⟨dec10 t ++ uptSfx, true, content⟩).content 4 = W - (U - t) ∧
    W - (U - t) ≤ W ∧
    (∀ ents, (scanUpt ents 64).length ≤ 64) := by
  have hparse : parse10 ((dec10 t ++ uptSfx)) % 2 ^ 32 = t := by
    rw [parse10_dec10 t (by norm_num at ht ⊢; omega) uptSfx, Nat.mod_eq_of_lt ht]
  have hreal : retimestampRealTs U W (parse10 (dec10 t ++ uptSfx) % 2 ^ 32)
      = W - (U - t) := by
    rw [hparse, retimestampRealTs_eq U W t hU hW ht hwrap]
  refine ⟨?_, ?_, by omega, fun ents => scanUpt_length_le ents 64⟩
  · show dec10 (retimestampRealTs U W (parse10 (dec10 t ++ uptSfx) % 2 ^ 32)) ++ binSfx = _
    rw [hreal]
  · show readU32 (patchTs content
        (retimestampRealTs U W (parse10 (dec10 t ++ uptSfx) % 2 ^ 32))) 4 = _
    rw [hreal, readU32_patchTs content _ h4, Nat.mod_eq_of_lt (by omega)]

theorem c8_retimestamp_witness :
    (50 < 2 ^ 32 ∧ 1000 < 2 ^ 32 ∧ 100 < 2 ^ 32 ∧ 50 - 100 ≤ 1000 ∧
      4 ≤ (mkHeader 100 21 16000 0).length) ∧
    ((retimestamp_upt_file 50 1000 true true
        ⟨dec10 100 ++ uptSfx, true, mkHeader 100 21 16000 0⟩).name
          = dec10 (1000 - (50 - 100)) ++ binSfx ∧
      readU32 (retimestamp_upt_file 50 1000 true true
          ⟨dec10 100 ++ uptSfx, true, mkHeader 100 21 16000 0⟩).content 4
        = 1000 - (50 - 100) ∧
      1000 - (50 - 100) ≤ 1000 ∧
      (∀ ents, (scanUpt ents 64).length ≤ 64)) :=
  ⟨⟨by decide, by decide, by decide, by decide, by decide⟩,
    c8_retimestamp 50 1000 100 (mkHeader 100 21 16000 0) (by decide) (by decide)
      (by decide) (by decide) (by decide)⟩

/-- One accepted frame appends exactly its length-prefixed record to the
eventual body (the opportunistic flush moves bytes from the RAM buffer
to the file but never changes their concatenation). -/
theorem finalize_body_on_codec (s : RecState) (f : List Nat) (hacc : frameAccepted f) :
    finalize_body (on_codec_output s f) = finalize_body s ++ frameRecord f := by
  obtain ⟨h1, h2, h3⟩ := hacc
  rw [on_codec_output, if_neg (by omega), if_neg (by rw [streamBufSize] at h3 ⊢; omega)]
  by_cases hov : streamBufSize < s.buf.length + 2 + f.length
  · rw [if_pos hov]
    simp [finalize_body, frameRecord]
  · rw [if_neg hov]
    simp [finalize_body, frameRecord, List.append_assoc]

/-- Feeding accepted frames in order appends their records in order. -/
theorem finalize_body_ingestAll (s : RecState) (frames : List (List Nat))
    (hacc : ∀ f ∈ frames, frameAccepted f) :
    finalize_body (ingestAll s frames)
      = finalize_body s ++ (frames.map frameRecord).flatten := by
  induction frames generalizing s with
  | nil => simp [ingestAll]
  | cons f rest ih =>
    rw [ingestAll, List.foldl_cons]
    have hstep := finalize_body_on_codec s f (hacc f (List.mem_cons_self f rest))
    rw [show (List.foldl on_codec_output (on_codec_output s f) rest)
        = ingestAll (on_codec_output s f) rest from rfl,
      ih _ (fun g hg => hacc g (List.mem_cons_of_mem f hg)), hstep]
    simp [List.append_assoc]

/-- The body parser inverts the record writer. -/
theorem parseFrames_records (frames : List (List Nat)) (fuel : Nat)
    (hacc : ∀ f ∈ frames, 1 ≤ f.length ∧ f.length ≤ 65535)
    (hfuel : ((frames.map frameRecord).flatten).length ≤ fuel) :
    parseFrames fuel ((frames.map frameRecord).flatten) = some frames := by
  induction frames generalizing fuel with
  | nil =>
    show parseFrames fuel [] = some []
    match fuel with
    | 0 => rfl
    | _ + 1 => rfl
  | cons f rest ih =>
    obtain ⟨h1, h2⟩ := hacc f (List.mem_cons_self f rest)
    have hflat : ((f :: rest).map frameRecord).flatten
        = (f.length % 256) :: (f.length / 256 % 256)
            :: (f ++ (rest.map frameRecord).flatten) := by
      simp [frameRecord, u16le]
    rw [hflat] at hfuel ⊢
    simp only [List.length_cons, List.length_append] at hfuel
    obtain ⟨fu, rfl⟩ : ∃ fu, fuel = fu + 1 := ⟨fuel - 1, by omega⟩
    have hdec : f.length % 256 + 256 * (f.length / 256 % 256) = f.length := by omega
    have hstep : parseFrames (fu + 1) ((f.length % 256) :: (f.length / 256 % 256)
          :: (f ++ (rest.map frameRecord).flatten))
        = if f.length % 256 + 256 * (f.length / 256 % 256)
              ≤ (f ++ (rest.map frameRecord).flatten).length then
            match parseFrames fu ((f ++ (rest.map frameRecord).flatten).drop
                (f.length % 256 + 256 * (f.length / 256 % 256))) with
            | some fs => some ((f ++ (rest.map frameRecord).flatten).take
                (f.length % 256 + 256 * (f.length / 256 % 256)) :: fs)
            | none => none
          else none := rfl
    rw [hstep, hdec, if_pos (by simp only [List.length_append]; omega),
      List.drop_left, List.take_left,
      ih fu (fun g hg => hacc g (List.mem_cons_of_mem f hg)) (by omega)]

/-- C9 (confirmed): feeding frames with lengths in `1..65535`, each
accepted by the ingest path, within one chunk window yields a finalized
body that consists of exactly the 2-byte-LE-length-prefixed records of
those frames in order, and the body parses back to the same lengths and
payloads in the same order. -/
theorem c9_roundtrip (frames : List (List Nat)) (hacc : ∀ f ∈ frames, frameAccepted f) :
    finalize_body (ingestAll ⟨[], [], 0⟩ frames) = (frames.map frameRecord).flatten ∧
    parseFrames (finalize_body (ingestAll ⟨[], [], 0⟩ frames)).length
        (finalize_body (ingestAll ⟨[], [], 0⟩ frames)) = some frames := by
  have hbody : finalize_body (ingestAll ⟨[], [], 0⟩ frames)
      = (frames.map frameRecord).flatten := by
    rw [finalize_body_ingestAll _ _ hacc]
    rfl
  refine ⟨hbody, ?_⟩
  rw [hbody]
  exact parseFrames_records frames _
    (fun f hf => ⟨(hacc f hf).1, (hacc f hf).2.1⟩) (Nat.le_refl _)

theorem c9_roundtrip_witness :
    (∀ f ∈ [[10], [20, 30]], frameAccepted f) ∧
    (finalize_body (ingestAll ⟨[], [], 0⟩ [[10], [20, 30]])
        = ([[10], [20, 30]].map frameRecord).flatten ∧
      parseFrames (finalize_body (ingestAll ⟨[], [], 0⟩ [[10], [20, 30]])).length
          (finalize_body (ingestAll ⟨[], [], 0⟩ [[10], [20, 30]]))
        = some [[10], [20, 30]]) :=
  ⟨by decide, c9_roundtrip [[10], [20, 30]] (by decide)⟩

/-- C10 (confirmed): every non-empty control write is accepted with its
full length as the return value, and an ACK_CHUNK write of 1–4 bytes
(command byte present, `ts` body incomplete) has no effect at all: the
`_upload_active` flag is unchanged, the semaphore is not given, and no
file is unlinked. -/
theorem c10_ctrl_write_short_ack (active : Bool) (data : List Nat)
    (hne : 1 ≤ data.length) :
    (ctrl_write active data).ret = data.length ∧
    (data.getD 0 0 = 2 → data.length ≤ 4 →
      ctrl_write active data
        = { ret := data.length, upload_active := active, sem_give := false,
            unlink_ts := none }) := by
  constructor
  · rw [ctrl_write, if_neg (by omega)]
    split_ifs <;> rfl
  · intro hcmd hlen
    rw [ctrl_write, if_neg (by omega), if_neg (by omega), if_pos hcmd,
      if_neg (by omega)]

theorem c10_ctrl_write_short_ack_witness :
    1 ≤ ([2, 9] : List Nat).length ∧
    ((ctrl_write false [2, 9]).ret = ([2, 9] : List Nat).length ∧
      (([2, 9] : List Nat).getD 0 0 = 2 → ([2, 9] : List Nat).length ≤ 4 →
        ctrl_write false [2, 9]
          = { ret := ([2, 9] : List Nat).length, upload_active := false,
              sem_give := false, unlink_ts := none })) :=
  ⟨by decide, c10_ctrl_write_short_ack false [2, 9] (by decide)⟩

end RecLo
